import Mathlib

/-!
Verification of the uarray dispatch-engine specification.

The repository's visible source (uarray/init) documents the protocol; the
engine itself lives in the uarray.backend module, which is not part of the
visible sources. The engine below is therefore modelled from the
specification's data model (section 3) and algorithm (sections 4.2 to 4.4),
with Python values shallowly embedded as an inductive Value type and hook
exceptions embedded as an explicit raised variant.
-/

namespace UA

/-- Modelled from the spec: advisory type tags carried by Dispatchable
markers (the spec's TypeTag); the doctests use the Python types int, str
and float. -/
inductive TypeTag : Type where
  | tint : TypeTag
  | tstr : TypeTag
  | tfloat : TypeTag

/-- Shallow embedding of the Python values flowing through the engine. -/
inductive Value : Type where
  | vint : Int → Value
  | vstr : String → Value
  | vnone : Value
  | vlist : List Value → Value

/-- Modelled from the spec: a Dispatchable wraps one call argument with an
advisory marked type and a coercibility flag (spec section 3). -/
structure Dispatchable : Type where
  value : Value
  marked_type : TypeTag
  coercible : Bool

abbrev Args : Type := List Value

abbrev Kwargs : Type := List (String × Value)

/-- Result of a backend hook: a produced value, the refusal sentinel
(NotImplemented), or an exception raised inside the hook (spec section 9
recommends exactly this explicit two-variant encoding of the sentinel;
the raised variant embeds Python exceptions). -/
inductive HookResult (α : Type) : Type where
  | handled : α → HookResult α
  | refused : HookResult α
  | raised : String → HookResult α

/-- A dispatch function together with the Python-level name it carries
(the function object's dunder name attribute). -/
structure DispatchFn : Type where
  name : String
  fn : Args → Kwargs → List Dispatchable

/-- Modelled from the spec: a Multimethod pairs a dispatch function and a
reverse-dispatch function with a domain and an optional default
implementation (spec section 3); its name is copied from the dispatch
function. -/
structure Multimethod : Type where
  name : String
  dispatch : DispatchFn
  reverse_dispatch_fn : Args → Kwargs → List Dispatchable → Args × Kwargs
  domain : String
  default_impl : Option (Args → Kwargs → Value)

/-- Modelled from the spec: a Backend exposes a domain, a mandatory
function hook and an optional convert hook (spec section 3). -/
structure Backend : Type where
  domain : String
  function_hook : Multimethod → Args → Kwargs → List Dispatchable → HookResult Value
  convert_hook : Option (Value → TypeTag → Bool → HookResult Value)

/-- Modelled from the spec: generate_multimethod builds an immutable
Multimethod from its parts (spec section 4.1); the missing engine code is
the uarray.backend module. -/
def generate_multimethod (dispatch_fn : DispatchFn)
    (reverse_dispatch_fn : Args → Kwargs → List Dispatchable → Args × Kwargs)
    (domain : String) (default_impl : Option (Args → Kwargs → Value)) : Multimethod :=
  ⟨dispatch_fn.name, dispatch_fn, reverse_dispatch_fn, domain, default_impl⟩

/-- One entry of the scoped override stack: the pushed backend with the
coerce and exclusive options of its set_backend scope. -/
structure StackEntry : Type where
  backend : Backend
  coerce : Bool
  exclusive : Bool

/-- One registry record: a permanently registered backend with its
priority. -/
structure RegEntry : Type where
  backend : Backend
  priority : Int

/-- Modelled from the spec: apply a present convert hook to every
Dispatchable in order; a refused element is dropped (its position removed),
a handled result replaces the value, and a raised exception aborts the
whole conversion (spec section 4.3). -/
def uaConvertList (h : Value → TypeTag → Bool → HookResult Value) (coerce : Bool) :
    List Dispatchable → Except String (List Dispatchable)
  | [] => Except.ok []
  | d :: ds =>
    match h d.value d.marked_type coerce with
    | HookResult.raised e => Except.error e
    | HookResult.refused => uaConvertList h coerce ds
    | HookResult.handled r =>
      match uaConvertList h coerce ds with
      | Except.error e => Except.error e
      | Except.ok rest => Except.ok (⟨r, d.marked_type, d.coercible⟩ :: rest)

/-- Modelled from the spec: conversion step for one candidate backend; an
absent convert hook passes the Dispatchables through unchanged
(spec section 4.3). -/
def uaConvertAll (h : Option (Value → TypeTag → Bool → HookResult Value)) (coerce : Bool)
    (D : List Dispatchable) : Except String (List Dispatchable) :=
  match h with
  | none => Except.ok D
  | some hook => uaConvertList hook coerce D

/-- Outcome of one multimethod call: a value, the terminal
BackendNotImplementedError (the spec's NoBackendError), or a propagated
exception. -/
inductive CallResult : Type where
  | ok : Value → CallResult
  | noBackend : CallResult
  | raised : String → CallResult

/-- Modelled from the spec: the NO_BACKEND terminal step; with a default
implementation the arguments are reconstructed through the
reverse-dispatch function and the default is invoked, otherwise the call
fails with the terminal error (spec section 4.4 step 4). -/
def noBackendFallback (mm : Multimethod) (args : Args) (kwargs : Kwargs)
    (D : List Dispatchable) : CallResult :=
  match mm.default_impl with
  | some f =>
    let p := mm.reverse_dispatch_fn args kwargs D
    CallResult.ok (f p.1 p.2)
  | none => CallResult.noBackend

/-- Modelled from the spec: the CONVERT / INVOKE / FALLBACK loop of the
invocation engine over the ordered candidate list (spec section 4.4
steps 3 and 4). Besides the call outcome it returns the trace of backends
whose function hook was actually invoked, in order. -/
def uaTry (mm : Multimethod) (args : Args) (kwargs : Kwargs) (D : List Dispatchable) :
    List (Backend × Bool) → CallResult × List Backend
  | [] => (noBackendFallback mm args kwargs D, [])
  | (B, coerce) :: rest =>
    match uaConvertAll B.convert_hook coerce D with
    | Except.error e => (CallResult.raised e, [])
    | Except.ok DB =>
      match B.function_hook mm args kwargs DB with
      | HookResult.handled v => (CallResult.ok v, [B])
      | HookResult.raised e => (CallResult.raised e, [B])
      | HookResult.refused =>
        let p := uaTry mm args kwargs D rest
        (p.1, B :: p.2)

/-- Modelled from the spec: the portion of the override stack considered
for candidate enumeration, cut at the innermost exclusive entry
(spec section 4.4 step 2); the head of the list is the most recently
pushed entry. -/
def stackUpToExclusive : List StackEntry → List StackEntry
  | [] => []
  | s :: ss => if s.exclusive then [s] else s :: stackUpToExclusive ss

/-- Insertion step of the registry ordering: keep entries sorted by
strictly descending-or-equal priority, earlier registration first among
equal priorities. -/
def insertByPriority (r : RegEntry) : List RegEntry → List RegEntry
  | [] => [r]
  | f :: fs => if f.priority < r.priority then r :: f :: fs else f :: insertByPriority r fs

/-- Modelled from the spec: order registry entries by descending priority
(spec section 4.2, higher priority tried first). -/
def sortRegistry : List RegEntry → List RegEntry
  | [] => []
  | r :: rs => insertByPriority r (sortRegistry rs)

/-- Modelled from the spec: the registry backends of a domain in
descending priority, as candidates without coercion. -/
def registryFor (reg : List RegEntry) (dom : String) : List (Backend × Bool) :=
  (sortRegistry (reg.filter (fun r => r.backend.domain == dom))).map
    (fun r => (r.backend, false))

/-- Modelled from the spec: the ordered candidate list of a call — the
domain-matching stack entries down to the innermost exclusive entry, most
recently pushed first, followed by the domain's registry backends in
descending priority only when no exclusive entry is present
(spec section 4.4 step 2). -/
def candidates (stack : List StackEntry) (reg : List RegEntry) (dom : String) :
    List (Backend × Bool) :=
  let stackPart := ((stackUpToExclusive stack).filter
    (fun s => s.backend.domain == dom)).map (fun s => (s.backend, s.coerce))
  if stack.any (fun s => s.exclusive) then stackPart
  else stackPart ++ registryFor reg dom

/-- Modelled from the spec: a full multimethod call — DISPATCH, then the
candidate loop (spec section 4.4). Returns the outcome and the trace of
invoked backends. -/
def callMultimethod (stack : List StackEntry) (reg : List RegEntry) (mm : Multimethod)
    (args : Args) (kwargs : Kwargs) : CallResult × List Backend :=
  uaTry mm args kwargs (mm.dispatch.fn args kwargs) (candidates stack reg mm.domain)

/-- Outcome of a scope body: a normal value or a propagating failure. -/
inductive BodyResult (α : Type) : Type where
  | normal : α → BodyResult α
  | raised : String → BodyResult α

/-- A stack-transforming computation: the body of a set_backend scope,
reading and returning the override stack of the current execution
context. -/
abbrev StackM (α : Type) : Type := List StackEntry → BodyResult α × List StackEntry

/-- Modelled from the spec: the set_backend scoped-acquisition construct —
push the entry on entry, run the body, and pop the entry on every exit
path, normal or failing (spec section 4.2). -/
def set_backend {α : Type} (b : Backend) (coerce exclusive : Bool) (body : StackM α) :
    StackM α :=
  fun stack =>
    let p := body (⟨b, coerce, exclusive⟩ :: stack)
    (p.1, p.2.drop 1)

/-! Concrete example backends and a multimethod, used as witnesses. -/

/-- A Dispatchable marking an integer value, as the doctest dispatch
function produces. -/
def dvInt (n : Int) : Dispatchable :=
  ⟨Value.vint n, TypeTag.tint, true⟩

/-- A backend whose function hook always refuses. -/
def refuserB : Backend :=
  ⟨"ex", fun _ _ _ _ => HookResult.refused, none⟩

/-- A backend whose function hook always accepts with the value 42. -/
def acceptorB : Backend :=
  ⟨"ex", fun _ _ _ _ => HookResult.handled (Value.vint 42), none⟩

/-- A further accepting backend, placed after the winner to show it is
never consulted. -/
def neverB : Backend :=
  ⟨"ex", fun _ _ _ _ => HookResult.handled (Value.vint 0), none⟩

/-- A backend whose convert hook raises on every input. -/
def raisingB : Backend :=
  ⟨"ex", fun _ _ _ _ => HookResult.handled Value.vnone,
    some (fun _ _ _ => HookResult.raised "boom")⟩

/-- The doctest dispatch function: mark the first argument with the int
type tag. -/
def exDF : DispatchFn :=
  ⟨"override_me", fun args _ =>
    match args with
    | a :: _ => [⟨a, TypeTag.tint, true⟩]
    | [] => []⟩

/-- The doctest reverse-dispatch function: rebuild the argument pair from
the first dispatchable value and the second original argument. -/
def exRev : Args → Kwargs → List Dispatchable → Args × Kwargs :=
  fun args _ ds =>
    match ds, args with
    | d :: _, _ :: b :: _ => ([d.value, b], [])
    | _, _ => (args, [])

/-- An example multimethod of domain ex with no default implementation. -/
def exMM : Multimethod :=
  generate_multimethod exDF exRev "ex" none

/-- String rendering of an embedded value, as the Python str builtin does
for the types the doctests use. -/
def valueStr : Value → String
  | Value.vint n => toString n
  | Value.vstr s => s
  | Value.vnone => "None"
  | Value.vlist _ => "[...]"

/-- The doctest convert hook: convert an int-marked value to its string
form only when coerce is set, pass it through unchanged otherwise, and
refuse every other marked type. -/
def exConvert : Value → TypeTag → Bool → HookResult Value
  | v, TypeTag.tint, coerce =>
    if coerce then HookResult.handled (Value.vstr (valueStr v)) else HookResult.handled v
  | _, _, _ => HookResult.refused

/-- Printable name of a type tag. -/
def typeName : TypeTag → String
  | TypeTag.tint => "int"
  | TypeTag.tstr => "str"
  | TypeTag.tfloat => "float"

/-- Observable rendering of a Dispatchable: its marked type name together
with its value, as the doctest output prints it. -/
def encodeDispatchable (d : Dispatchable) : Value :=
  Value.vlist [Value.vstr (typeName d.marked_type), d.value]

/-- The backend of the coercion scenario: the doctest convert hook, and a
function hook reporting the dispatchables it receives. -/
def coerceB : Backend :=
  ⟨"ex", fun _ _ _ ds => HookResult.handled (Value.vlist (ds.map encodeDispatchable)),
    some exConvert⟩

/-- A backend whose function hook reports the name of the multimethod it
is handed as its method argument. -/
def echoBackend (dom : String) : Backend :=
  ⟨dom, fun m _ _ _ => HookResult.handled (Value.vstr m.name), none⟩

end UA

namespace UA

/-! Theorems settling the claims. -/

/-- Claim C4: set_backend runs its body on the stack with exactly the
entry (backend, coerce, exclusive) pushed on top, and on every exit path
(the model pops unconditionally, whether the body result is normal or a
propagating failure) the stack after exit equals the stack before entry;
moreover a scope whose body preserves the stack itself preserves the
stack, which covers nested uses. -/
theorem set_backend_scoped {α : Type} (b : Backend) (c e : Bool) (stack : List StackEntry)
    (body : StackM α) (hbody : ∀ s, (body s).2 = s) :
    (set_backend b c e body stack).1 = (body (⟨b, c, e⟩ :: stack)).1 ∧
    (set_backend b c e body stack).2 = stack ∧
    ∀ s, (set_backend b c e body s).2 = s := by
  refine ⟨rfl, ?_, ?_⟩
  · simp [set_backend, hbody]
  · intro s
    simp [set_backend, hbody]

theorem set_backend_scoped_witness :
    (set_backend acceptorB true false
      (fun s => ((BodyResult.raised "boom" : BodyResult Value), s)) []).2 =
      ([] : List StackEntry) :=
  (set_backend_scoped acceptorB true false []
    (fun s => ((BodyResult.raised "boom" : BodyResult Value), s)) (fun _ => rfl)).2.1

/-- Claim C1: in the fallback chain, if every candidate before the pair
(B, c) refuses after a successful conversion, B converts successfully and
its function hook accepts with value v, then the call returns v, the
invoked-backend trace is exactly the refusing candidates followed by B,
and in particular no candidate after B is ever invoked. -/
theorem first_acceptor_wins (mm : Multimethod) (args : Args) (kwargs : Kwargs)
    (D DB : List Dispatchable) (cs1 cs2 : List (Backend × Bool)) (B : Backend) (c : Bool)
    (v : Value)
    (hrefuse : ∀ p ∈ cs1, ∃ Dp, uaConvertAll p.1.convert_hook p.2 D = Except.ok Dp ∧
        p.1.function_hook mm args kwargs Dp = HookResult.refused)
    (hconv : uaConvertAll B.convert_hook c D = Except.ok DB)
    (haccept : B.function_hook mm args kwargs DB = HookResult.handled v) :
    uaTry mm args kwargs D (cs1 ++ (B, c) :: cs2) =
      (CallResult.ok v, cs1.map Prod.fst ++ [B]) := by
  induction cs1 with
  | nil => simp [uaTry, hconv, haccept]
  | cons p ps ih =>
    obtain ⟨pB, pc⟩ := p
    obtain ⟨Dp, hc, hr⟩ := hrefuse (pB, pc) (by simp)
    have hc2 : uaConvertAll pB.convert_hook pc D = Except.ok Dp := hc
    have hr2 : pB.function_hook mm args kwargs Dp = HookResult.refused := hr
    have ih2 := ih (fun q hq => hrefuse q (List.mem_cons_of_mem _ hq))
    simp [uaTry, hc2, hr2, ih2]

theorem first_acceptor_wins_witness :
    uaTry exMM [Value.vint 1] [] [dvInt 1]
      [(refuserB, false), (acceptorB, false), (neverB, false)] =
      (CallResult.ok (Value.vint 42), [refuserB, acceptorB]) :=
  first_acceptor_wins exMM [Value.vint 1] [] [dvInt 1] [dvInt 1]
    [(refuserB, false)] [(neverB, false)] acceptorB false (Value.vint 42)
    (by
      intro p hp
      rw [List.mem_singleton] at hp
      subst hp
      exact ⟨[dvInt 1], rfl, rfl⟩)
    rfl rfl

/-- Claim C3: when every candidate refuses (which subsumes the case of no
candidate at all), the call falls through to the terminal step; with a
default implementation the arguments are rebuilt by the reverse-dispatch
function and the default's result is returned, and without one the call
ends in the terminal no-backend error. -/
theorem all_refuse_fallback (mm : Multimethod) (args : Args) (kwargs : Kwargs)
    (D : List Dispatchable) (cs : List (Backend × Bool))
    (hrefuse : ∀ p ∈ cs, ∃ Dp, uaConvertAll p.1.convert_hook p.2 D = Except.ok Dp ∧
        p.1.function_hook mm args kwargs Dp = HookResult.refused) :
    (uaTry mm args kwargs D cs).1 = noBackendFallback mm args kwargs D ∧
    (∀ f, mm.default_impl = some f →
      noBackendFallback mm args kwargs D =
        CallResult.ok (f (mm.reverse_dispatch_fn args kwargs D).1
          (mm.reverse_dispatch_fn args kwargs D).2)) ∧
    (mm.default_impl = none → noBackendFallback mm args kwargs D = CallResult.noBackend) := by
  refine ⟨?_, ?_, ?_⟩
  · induction cs with
    | nil => rfl
    | cons p ps ih =>
      obtain ⟨pB, pc⟩ := p
      obtain ⟨Dp, hc, hr⟩ := hrefuse (pB, pc) (by simp)
      have hc2 : uaConvertAll pB.convert_hook pc D = Except.ok Dp := hc
      have hr2 : pB.function_hook mm args kwargs Dp = HookResult.refused := hr
      have ih2 := ih (fun q hq => hrefuse q (List.mem_cons_of_mem _ hq))
      simp [uaTry, hc2, hr2, ih2]
  · intro f hf
    simp [noBackendFallback, hf]
  · intro hf
    simp [noBackendFallback, hf]

theorem all_refuse_fallback_witness :
    (uaTry exMM [Value.vint 1] [] [dvInt 1] [(refuserB, false)]).1 =
      CallResult.noBackend := by
  have h := all_refuse_fallback exMM [Value.vint 1] [] [dvInt 1] [(refuserB, false)]
    (by
      intro p hp
      rw [List.mem_singleton] at hp
      subst hp
      exact ⟨[dvInt 1], rfl, rfl⟩)
  exact h.1.trans (h.2.2 rfl)

/-- Claim C2: for a backend with a convert hook that raises on no element
of D, the converted list is exactly the filterMap that drops every
Dispatchable the hook refuses (its position removed, no placeholder) and
replaces the value of every Dispatchable the hook handles, keeping the
marked type and coercibility; and a candidate that ends up refusing leaves
the original list D intact for the remaining candidates, which receive the
very same D. -/
theorem convert_drop_or_replace (h : Value → TypeTag → Bool → HookResult Value)
    (coerce : Bool) (D : List Dispatchable)
    (hok : ∀ d ∈ D, ∀ e, h d.value d.marked_type coerce ≠ HookResult.raised e) :
    uaConvertList h coerce D = Except.ok (D.filterMap (fun d =>
      match h d.value d.marked_type coerce with
      | HookResult.handled r => some ⟨r, d.marked_type, d.coercible⟩
      | _ => none)) ∧
    ∀ mm args kwargs B c rest DB,
      uaConvertAll B.convert_hook c D = Except.ok DB →
      B.function_hook mm args kwargs DB = HookResult.refused →
      uaTry mm args kwargs D ((B, c) :: rest) =
        ((uaTry mm args kwargs D rest).1, B :: (uaTry mm args kwargs D rest).2) := by
  constructor
  · induction D with
    | nil => rfl
    | cons d ds ih =>
      have hd := hok d (by simp)
      have ih2 := ih (fun q hq e => hok q (List.mem_cons_of_mem _ hq) e)
      cases hres : h d.value d.marked_type coerce with
      | raised e => exact absurd hres (hd e)
      | refused => simp [uaConvertList, hres, ih2]
      | handled r => simp [uaConvertList, hres, ih2]
  · intro mm args kwargs B c rest DB hconv href
    simp [uaTry, hconv, href]

theorem convert_drop_or_replace_witness :
    uaConvertList (fun _ _ _ => HookResult.refused) true [dvInt 1] =
      Except.ok ([] : List Dispatchable) :=
  (convert_drop_or_replace (fun _ _ _ => HookResult.refused) true [dvInt 1]
    (fun _ _ _ hco => HookResult.noConfusion hco)).1

/-- Claim C6: for a backend without a convert hook the conversion step is
the identity, and the engine hands the function hook exactly the
Dispatchable list D produced by the dispatch function, unchanged. -/
theorem no_convert_hook_passthrough (B : Backend) (hB : B.convert_hook = none)
    (coerce : Bool) (D : List Dispatchable) :
    uaConvertAll B.convert_hook coerce D = Except.ok D ∧
    ∀ mm args kwargs rest,
      uaTry mm args kwargs D ((B, coerce) :: rest) =
        (match B.function_hook mm args kwargs D with
         | HookResult.handled v => (CallResult.ok v, [B])
         | HookResult.raised e => (CallResult.raised e, [B])
         | HookResult.refused =>
            ((uaTry mm args kwargs D rest).1, B :: (uaTry mm args kwargs D rest).2)) := by
  constructor
  · rw [hB]
    rfl
  · intro mm args kwargs rest
    rw [uaTry, hB]
    cases hres : B.function_hook mm args kwargs D <;> simp [uaConvertAll, hres]

theorem no_convert_hook_passthrough_witness :
    uaTry exMM [Value.vint 1] [] [dvInt 1] [(acceptorB, false)] =
      (CallResult.ok (Value.vint 42), [acceptorB]) :=
  (no_convert_hook_passthrough acceptorB rfl false [dvInt 1]).2 exMM [Value.vint 1] [] []

/-- Claim C8: if every candidate before the pair (B, c) refuses after a
successful conversion and the conversion step for B fails with a raised
exception e, the whole call ends immediately with that exception: the
failure is not treated as a refusal, B's function hook is not invoked, and
no candidate after B is ever tried (the trace holds only the earlier
refusers). -/
theorem convert_error_aborts (mm : Multimethod) (args : Args) (kwargs : Kwargs)
    (D : List Dispatchable) (cs1 cs2 : List (Backend × Bool)) (B : Backend) (c : Bool)
    (e : String)
    (hrefuse : ∀ p ∈ cs1, ∃ Dp, uaConvertAll p.1.convert_hook p.2 D = Except.ok Dp ∧
        p.1.function_hook mm args kwargs Dp = HookResult.refused)
    (herr : uaConvertAll B.convert_hook c D = Except.error e) :
    uaTry mm args kwargs D (cs1 ++ (B, c) :: cs2) =
      (CallResult.raised e, cs1.map Prod.fst) := by
  induction cs1 with
  | nil => simp [uaTry, herr]
  | cons p ps ih =>
    obtain ⟨pB, pc⟩ := p
    obtain ⟨Dp, hc, hr⟩ := hrefuse (pB, pc) (by simp)
    have hc2 : uaConvertAll pB.convert_hook pc D = Except.ok Dp := hc
    have hr2 : pB.function_hook mm args kwargs Dp = HookResult.refused := hr
    have ih2 := ih (fun q hq => hrefuse q (List.mem_cons_of_mem _ hq))
    simp [uaTry, hc2, hr2, ih2]

theorem convert_error_aborts_witness :
    uaTry exMM [Value.vint 1] [] [dvInt 1]
      [(refuserB, false), (raisingB, false), (neverB, false)] =
      (CallResult.raised "boom", [refuserB]) :=
  convert_error_aborts exMM [Value.vint 1] [] [dvInt 1]
    [(refuserB, false)] [(neverB, false)] raisingB false "boom"
    (by
      intro p hp
      rw [List.mem_singleton] at hp
      subst hp
      exact ⟨[dvInt 1], rfl, rfl⟩)
    rfl

/-! Ordering lemmas for the registry sort and the candidate list. -/

theorem insertByPriority_perm (r : RegEntry) (l : List RegEntry) :
    List.Perm (insertByPriority r l) (r :: l) := by
  induction l with
  | nil => rfl
  | cons f fs ih =>
    rw [insertByPriority]
    by_cases hc : f.priority < r.priority
    · rw [if_pos hc]
    · rw [if_neg hc]
      exact (ih.cons f).trans (List.Perm.swap r f fs)

theorem sortRegistry_perm (l : List RegEntry) :
    List.Perm (sortRegistry l) l := by
  induction l with
  | nil => rfl
  | cons r rs ih =>
    exact (insertByPriority_perm r (sortRegistry rs)).trans (ih.cons r)

theorem insertByPriority_pairwise (r : RegEntry) (l : List RegEntry)
    (hl : List.Pairwise (fun a b => b.priority ≤ a.priority) l) :
    List.Pairwise (fun a b => b.priority ≤ a.priority) (insertByPriority r l) := by
  induction l with
  | nil => simp [insertByPriority]
  | cons f fs ih =>
    rw [List.pairwise_cons] at hl
    obtain ⟨hf, hfs⟩ := hl
    rw [insertByPriority]
    by_cases hc : f.priority < r.priority
    · rw [if_pos hc, List.pairwise_cons]
      refine ⟨?_, List.pairwise_cons.mpr ⟨hf, hfs⟩⟩
      intro x hx
      rcases List.mem_cons.mp hx with h1 | h2
      · rw [h1]
        exact le_of_lt hc
      · exact le_trans (hf x h2) (le_of_lt hc)
    · rw [if_neg hc, List.pairwise_cons]
      refine ⟨?_, ih hfs⟩
      intro x hx
      have hx2 := (insertByPriority_perm r fs).mem_iff.mp hx
      rcases List.mem_cons.mp hx2 with h1 | h2
      · rw [h1]
        exact le_of_not_lt hc
      · exact hf x h2

theorem sortRegistry_pairwise (l : List RegEntry) :
    List.Pairwise (fun a b => b.priority ≤ a.priority) (sortRegistry l) := by
  induction l with
  | nil => exact List.Pairwise.nil
  | cons r rs ih => exact insertByPriority_pairwise r (sortRegistry rs) ih

theorem mem_registryFor {p : Backend × Bool} {reg : List RegEntry} {dom : String}
    (hp : p ∈ registryFor reg dom) : p.1.domain = dom := by
  rw [registryFor] at hp
  obtain ⟨r, hr, hrp⟩ := List.mem_map.mp hp
  have hr2 := (sortRegistry_perm _).mem_iff.mp hr
  have hd := (List.mem_filter.mp hr2).2
  rw [← hrp]
  exact beq_iff_eq.mp hd

theorem stackUpToExclusive_of_none (stack : List StackEntry)
    (h : stack.any (fun s => s.exclusive) = false) :
    stackUpToExclusive stack = stack := by
  induction stack with
  | nil => rfl
  | cons s ss ih =>
    rw [List.any_cons, Bool.or_eq_false_iff] at h
    rw [stackUpToExclusive, if_neg (by simp [h.1]), ih h.2]

/-- Claim C5: every candidate of a call has the multimethod's domain (so a
backend of a different domain is never selected, even from the override
stack); with an exclusive entry present the candidate list is exactly the
domain-filtered stack cut at the innermost exclusive entry, most recently
pushed first, with no registry backends; with no exclusive entry it is the
domain-filtered whole stack followed by the domain's registry backends,
which are a permutation of the domain's registry entries ordered by
descending priority. -/
theorem candidates_order (stack : List StackEntry) (reg : List RegEntry) (dom : String) :
    (∀ p ∈ candidates stack reg dom, p.1.domain = dom) ∧
    (stack.any (fun s => s.exclusive) = true →
      candidates stack reg dom =
        ((stackUpToExclusive stack).filter (fun s => s.backend.domain == dom)).map
          (fun s => (s.backend, s.coerce))) ∧
    (stack.any (fun s => s.exclusive) = false →
      candidates stack reg dom =
        ((stack.filter (fun s => s.backend.domain == dom)).map
          (fun s => (s.backend, s.coerce))) ++ registryFor reg dom) ∧
    List.Pairwise (fun a b => b.priority ≤ a.priority)
      (sortRegistry (reg.filter (fun r => r.backend.domain == dom))) ∧
    List.Perm (sortRegistry (reg.filter (fun r => r.backend.domain == dom)))
      (reg.filter (fun r => r.backend.domain == dom)) := by
  refine ⟨?_, ?_, ?_, sortRegistry_pairwise _, sortRegistry_perm _⟩
  · intro p hp
    rw [candidates] at hp
    have hstack : ∀ q ∈ ((stackUpToExclusive stack).filter
        (fun s => s.backend.domain == dom)).map (fun s => (s.backend, s.coerce)),
        (q : Backend × Bool).1.domain = dom := by
      intro q hq
      obtain ⟨s, hs, hsq⟩ := List.mem_map.mp hq
      have hd := (List.mem_filter.mp hs).2
      rw [← hsq]
      exact beq_iff_eq.mp hd
    by_cases hex : stack.any (fun s => s.exclusive) = true
    · rw [if_pos hex] at hp
      exact hstack p hp
    · rw [if_neg hex] at hp
      rcases List.mem_append.mp hp with h1 | h2
      · exact hstack p h1
      · exact mem_registryFor h2
  · intro hex
    rw [candidates, if_pos hex]
  · intro hex
    rw [candidates, if_neg (by rw [hex]; exact Bool.false_ne_true),
      stackUpToExclusive_of_none stack hex]

theorem candidates_order_witness :
    candidates [⟨refuserB, false, false⟩] [⟨acceptorB, 1⟩] "ex" =
      [(refuserB, false), (acceptorB, false)] :=
  ((candidates_order [⟨refuserB, false, false⟩] [⟨acceptorB, 1⟩] "ex").2.2.1 rfl).trans rfl

/-- Claim C7: the coercion scenario — a multimethod of domain ex and one
backend converting int-marked values to strings only under coercion.
Called under set_backend with coerce true on the arguments 1 and "2", the
result reflects a string-converted first argument; with coerce false the
original integer reaches the hook unconverted, the advisory int mark
leaving its actual type unchanged. -/
theorem coerce_scenario :
    (callMultimethod [⟨coerceB, true, false⟩] [] exMM
        [Value.vint 1, Value.vstr "2"] []).1 =
      CallResult.ok (Value.vlist [Value.vlist [Value.vstr "int", Value.vstr "1"]]) ∧
    (callMultimethod [⟨coerceB, false, false⟩] [] exMM
        [Value.vint 1, Value.vstr "2"] []).1 =
      CallResult.ok (Value.vlist [Value.vlist [Value.vstr "int", Value.vint 1]]) :=
  ⟨rfl, rfl⟩

theorem uaTry_trace_from_candidates (mm : Multimethod) (args : Args) (kwargs : Kwargs)
    (D : List Dispatchable) (cs : List (Backend × Bool)) :
    ∃ rest, cs.map Prod.fst = (uaTry mm args kwargs D cs).2 ++ rest := by
  induction cs with
  | nil => exact ⟨[], rfl⟩
  | cons p ps ih =>
    obtain ⟨pB, pc⟩ := p
    cases hc : uaConvertAll pB.convert_hook pc D with
    | error e => exact ⟨pB :: ps.map Prod.fst, by simp [uaTry, hc]⟩
    | ok DB =>
      cases hf : pB.function_hook mm args kwargs DB with
      | handled v => exact ⟨ps.map Prod.fst, by simp [uaTry, hc, hf]⟩
      | raised e => exact ⟨ps.map Prod.fst, by simp [uaTry, hc, hf]⟩
      | refused =>
        obtain ⟨rest, hrest⟩ := ih
        exact ⟨rest, by simp [uaTry, hc, hf, hrest]⟩

/-- Claim C9: candidate enumeration is a pure, deterministic function of
the override stack and registry contents at call time — two calls made
with equal stack and registry contents produce the same candidate list and
the same outcome and invocation trace — and the backends actually tried
are always an in-order prefix of that candidate list, with no
nondeterministic tie-breaking anywhere in the model. -/
theorem deterministic_order (s1 s2 : List StackEntry) (r1 r2 : List RegEntry)
    (mm : Multimethod) (hs : s1 = s2) (hr : r1 = r2) :
    candidates s1 r1 mm.domain = candidates s2 r2 mm.domain ∧
    (∀ args kwargs, callMultimethod s1 r1 mm args kwargs =
      callMultimethod s2 r2 mm args kwargs) ∧
    ∀ args kwargs, ∃ rest, (candidates s1 r1 mm.domain).map Prod.fst =
      (callMultimethod s1 r1 mm args kwargs).2 ++ rest := by
  subst hs
  subst hr
  refine ⟨rfl, fun _ _ => rfl, fun args kwargs => ?_⟩
  exact uaTry_trace_from_candidates mm args kwargs (mm.dispatch.fn args kwargs)
    (candidates s1 r1 mm.domain)

theorem deterministic_order_witness :
    candidates [⟨refuserB, false, false⟩] [] exMM.domain =
      candidates [⟨refuserB, false, false⟩] [] exMM.domain :=
  (deterministic_order [⟨refuserB, false, false⟩] [⟨refuserB, false, false⟩]
    [] [] exMM rfl rfl).1

/-- Claim C10: the multimethod built by generate_multimethod carries the
dispatch function's name as its own name, and the engine passes the
multimethod itself as the method argument of the selected backend's
function hook, so the hook can observe which generic operation is being
invoked — here a backend that reports the received method's name returns
exactly the dispatch function's name. -/
theorem multimethod_identity (df : DispatchFn)
    (rf : Args → Kwargs → List Dispatchable → Args × Kwargs) (dom : String)
    (dfl : Option (Args → Kwargs → Value)) (args : Args) (kwargs : Kwargs) (c : Bool)
    (D : List Dispatchable) :
    (generate_multimethod df rf dom dfl).name = df.name ∧
    (uaTry (generate_multimethod df rf dom dfl) args kwargs D [(echoBackend dom, c)]).1 =
      CallResult.ok (Value.vstr df.name) :=
  ⟨rfl, rfl⟩

end UA
